import Mathlib

/-!
Shallow embedding of the highlight detection & segmentation engine of the
`youtube_timeline_generator` repository, together with proofs checking the
natural-language specification against the code.

Python floats are modelled as exact rationals (`ℚ`); the two places where the
code produces genuinely irrational values (`np.std`, i.e. a square root, and
`np.log`) are modelled in `ℝ`.  Python lists are Lean `List`s, Python dicts
with a fixed key set are structures, and optional dict keys are `Option`
fields.  Fallible dictionary access (`d['k']` which can raise `KeyError`) is
modelled with `Except String`.
-/

namespace Movie

/-- Python `int(x)` on a float: truncation toward zero. -/
def pyInt (q : ℚ) : ℤ := if 0 ≤ q then ⌊q⌋ else -⌊-q⌋

/-- `np.mean` of a list (`sum / len`).  `np.mean` of an empty list is NaN in
Python; that case is unreachable in every use below, and is mapped to `0`
(division by zero in `ℚ`). -/
def npMean (l : List ℚ) : ℚ := l.sum / (l.length : ℚ)

/-- Python slice `l[a:b]` for `0 ≤ a`, `0 ≤ b` (clamping at the ends). -/
def pySlice (l : List ℚ) (a b : ℕ) : List ℚ := (l.take b).drop a

/-- `np.min` of a list; the empty case (an error in numpy) is unreachable in
every use below. -/
def npMin : List ℚ → ℚ
  | [] => 0
  | x :: xs => xs.foldl min x

/-- `np.max` of a list; the empty case is unreachable in every use below. -/
def npMax : List ℚ → ℚ
  | [] => 0
  | x :: xs => xs.foldl max x

/-- The fixed hop length of `AudioAnalyzer` / `EventDetector`
(`self.hop_length = 512`). -/
def hopLength : ℕ := 512

/-- An event dictionary as produced by the detectors and consumed by the
merger (`audio_analyzer.py`, `event_detector.py`, `entertainment_detector.py`).
Keys that are only sometimes present (`intensity`, `duration`, `confidence`,
`event_count`) are `Option` fields; the code only ever reads them through
`dict.get` with a default.  `intensity` lives in `ℝ` because the volume-peak
detector divides by a standard deviation (a square root). -/
structure Event where
  time : ℚ
  type : String
  intensity : Option ℝ := none
  duration : Option ℚ := none
  confidence : Option ℚ := none
  description : String := ""
  event_count : Option ℕ := none

/-- The fields of the analysis dictionary (`AudioAnalyzer.analyze_audio`)
that the embedded detectors read: `rms`, `times`, `sample_rate`. -/
structure Analysis where
  rms : List ℚ
  times : List ℚ
  sample_rate : ℕ

/-- The body of the loop of `AudioAnalyzer.detect_silence_to_loud`
(audio_analyzer.py lines 141-153) at index `i`: if frame `i-1` is silent
(`rms[i-1] < silence_threshold`) and `rms[i] > loud_threshold`, and the mean
rms over the lookback window `rms[max(0, i-lookback):i]` stays below
`silence_threshold * 2`, a `surprise` event is produced. -/
def stl_check (rms times : List ℚ) (sample_rate : ℕ)
    (silence_threshold loud_threshold max_gap : ℚ) (i : ℕ) : Option Event :=
  if 0 < i ∧ rms.getD (i-1) 0 < silence_threshold ∧ rms.getD i 0 > loud_threshold then
    let lookback : ℤ := min (i : ℤ) (pyInt (max_gap * sample_rate / (hopLength : ℚ)))
    if npMean (pySlice rms (max 0 ((i : ℤ) - lookback)).toNat i) < silence_threshold * 2 then
      some { time := times.getD i 0
             type := "surprise"
             intensity := some ((rms.getD i 0 / silence_threshold : ℚ) : ℝ)
             description := "静寂からの急激な音量上昇" }
    else none
  else none

/-- `AudioAnalyzer.detect_silence_to_loud` (audio_analyzer.py lines 119-155):
`for i in range(1, len(rms))`, collect the events produced by the loop body
`stl_check`. -/
def detect_silence_to_loud (a : Analysis) (silence_threshold : ℚ := 1/100)
    (loud_threshold : ℚ := 1/10) (max_gap : ℚ := 1) : List Event :=
  (List.range' 1 (a.rms.length - 1)).filterMap
    (stl_check a.rms a.times a.sample_rate silence_threshold loud_threshold max_gap)

/-- Python `f'{q:.1f}'` on the (nonnegative) durations produced below:
round to one decimal place and print `d.t`. -/
def formatOneDecimal (q : ℚ) : String :=
  let n : ℤ := ⌊q * 10 + 1/2⌋
  toString (n / 10) ++ "." ++ toString (n % 10).natAbs

/-- The event emitted by `detect_sustained_high_volume` for the run `[s, i)`
(audio_analyzer.py lines 189-195). -/
def sustained_event (rms times : List ℚ) (mean_rms : ℚ) (s i : ℕ) : Event :=
  { time := times.getD s 0
    type := "sustained_high_volume"
    duration := some (times.getD i 0 - times.getD s 0)
    intensity := some ((npMean (pySlice rms s i) / mean_rms : ℚ) : ℝ)
    description := "持続的な盛り上がり（" ++ formatOneDecimal (times.getD i 0 - times.getD s 0) ++ "秒間）" }

/-- The scan loop of `AudioAnalyzer.detect_sustained_high_volume`
(audio_analyzer.py lines 182-197): walk the high-volume mask carrying
`start_idx : Option ℕ`; on a `true` frame with no open run, open one; on a
`false` frame with an open run `[s, i)`, emit an event when
`times[i] - times[s] ≥ min_duration` and close the run.  Note the loop never
emits for a run still open when the list ends. -/
def sus_go (rms times : List ℚ) (mean_rms min_duration : ℚ) :
    List Bool → ℕ → Option ℕ → List Event
  | [], _, _ => []
  | b :: rest, i, none =>
    if b then sus_go rms times mean_rms min_duration rest (i+1) (some i)
    else sus_go rms times mean_rms min_duration rest (i+1) none
  | b :: rest, i, some s =>
    if b then sus_go rms times mean_rms min_duration rest (i+1) (some s)
    else if times.getD i 0 - times.getD s 0 ≥ min_duration then
      sustained_event rms times mean_rms s i :: sus_go rms times mean_rms min_duration rest (i+1) none
    else sus_go rms times mean_rms min_duration rest (i+1) none

/-- `AudioAnalyzer.detect_sustained_high_volume` (audio_analyzer.py lines
157-199): threshold `mean(rms) * threshold_multiplier`, mask `rms > threshold`,
then the scan `sus_go`. -/
def detect_sustained_high_volume (a : Analysis) (threshold_multiplier : ℚ := 13/10)
    (min_duration : ℚ := 5) : List Event :=
  let mean_rms := npMean a.rms
  let threshold := mean_rms * threshold_multiplier
  sus_go a.rms a.times mean_rms min_duration
    (a.rms.map (fun r => decide (r > threshold))) 0 none

/-- Reference computation of the maximal runs of `true` in a boolean mask,
with the same scan state as `sus_go`: a pair `(s, e)` is the maximal run of
`true` values at positions `s, s+1, …, e-1`.  Unlike the code's scan, a run
still open at the end of the list is also reported (as `(s, length)`). -/
def runs_go : List Bool → ℕ → Option ℕ → List (ℕ × ℕ)
  | [], _, none => []
  | [], n, some s => [(s, n)]
  | b :: rest, i, none =>
    if b then runs_go rest (i+1) (some i) else runs_go rest (i+1) none
  | b :: rest, i, some s =>
    if b then runs_go rest (i+1) (some s) else (s, i) :: runs_go rest (i+1) none

/-- All maximal runs of `true` in a mask, including a trailing one. -/
def true_runs (mask : List Bool) : List (ℕ × ℕ) := runs_go mask 0 none

/-- Spec-side description of the sustained-high-volume detector, following
the spec's words as amended: one event per maximal above-threshold run,
restricted to runs that end strictly before the end of the series, whose
duration `times[e] - times[s]` reaches `min_duration`. -/
def sustained_spec_events (rms times : List ℚ) (threshold_multiplier min_duration : ℚ) :
    List Event :=
  let mean_rms := npMean rms
  let threshold := mean_rms * threshold_multiplier
  let mask := rms.map (fun r => decide (r > threshold))
  ((true_runs mask).filter (fun p =>
      decide (p.2 < rms.length) && decide (times.getD p.2 0 - times.getD p.1 0 ≥ min_duration))).map
    (fun p => sustained_event rms times mean_rms p.1 p.2)

/-- The inner `while` loop of scipy's `_local_maxima_1d` (used by
`scipy.signal.find_peaks`): starting at `j`, skip forward over samples equal
to the plateau value `v`, stopping at `iMax`. -/
def lm_find_ahead (x : List ℚ) (v : ℚ) (iMax : ℕ) : ℕ → ℕ → ℕ
  | 0, j => j
  | fuel+1, j => if j < iMax ∧ x.getD j 0 = v then lm_find_ahead x v iMax fuel (j+1) else j

/-- The outer `while` loop of scipy's `_local_maxima_1d`: for `1 ≤ i < n-1`,
if `x[i-1] < x[i]`, find the end of the plateau starting at `i`; if the
sample after the plateau is strictly smaller, record the plateau midpoint
and resume after the plateau, else advance by one.  `fuel` bounds the number
of iterations (the index strictly increases, so `x.length` suffices). -/
def lm_go (x : List ℚ) (iMax : ℕ) : ℕ → ℕ → List ℕ
  | 0, _ => []
  | fuel+1, i =>
    if i < iMax then
      if x.getD (i-1) 0 < x.getD i 0 then
        let iA := lm_find_ahead x (x.getD i 0) iMax x.length (i+1)
        if x.getD iA 0 < x.getD i 0 then (i + (iA - 1)) / 2 :: lm_go x iMax fuel (iA + 1)
        else lm_go x iMax fuel (i+1)
      else lm_go x iMax fuel (i+1)
    else []

/-- scipy `_local_maxima_1d`: midpoints of interior plateaus that are
strictly higher than their neighbours on both sides. -/
def local_maxima (x : List ℚ) : List ℕ := lm_go x (x.length - 1) x.length 1

/-- scipy `_select_by_peak_distance`: visit peak positions from highest to
lowest priority; a still-kept peak suppresses every other peak closer than
`distance` to it.  (scipy walks left and right with two `while` loops; since
peak midpoints are strictly increasing this marks exactly the peaks within
`distance`, as written here.) -/
def sbd_go (peaks : List ℕ) (distance : ℕ) : List ℕ → List Bool → List Bool
  | [], keep => keep
  | j :: rest, keep =>
    if keep.getD j false then
      sbd_go peaks distance rest
        ((List.range keep.length).map (fun k =>
          if k ≠ j ∧ ((peaks.getD k 0 : ℤ) - (peaks.getD j 0 : ℤ)).natAbs < distance then false
          else keep.getD k false))
    else sbd_go peaks distance rest keep

/-- scipy `_select_by_peak_distance` wrapper: priorities are the peak
heights; `np.argsort` ascending, processed in reverse order. -/
def select_by_peak_distance (peaks : List ℕ) (priority : List ℚ) (distance : ℕ) : List Bool :=
  let order := (List.range peaks.length).mergeSort
    (fun a b => decide (priority.getD a 0 ≤ priority.getD b 0))
  sbd_go peaks distance order.reverse (List.replicate peaks.length true)

open Classical in
/-- `scipy.signal.find_peaks(x, height, distance)`: local plateau maxima,
filtered by required height, then thinned by minimal peak distance with
higher peaks winning.  The height is an `ℝ` because `detect_volume_peaks`
passes a threshold built from a standard deviation. -/
noncomputable def find_peaks (x : List ℚ) (height : ℝ) (distance : ℕ) : List ℕ :=
  let mids := local_maxima x
  let mids2 := mids.filter (fun p => decide (height ≤ ((x.getD p 0 : ℚ) : ℝ)))
  let keep := select_by_peak_distance mids2 (mids2.map (fun p => x.getD p 0)) distance
  (mids2.zip keep).filterMap (fun pk => if pk.2 then some pk.1 else none)

/-- `np.std` (population standard deviation): the square root of the mean
squared deviation from the mean. -/
noncomputable def npStd (l : List ℚ) : ℝ :=
  Real.sqrt ((npMean (l.map (fun x => (x - npMean l)^2)) : ℚ) : ℝ)

open Classical in
/-- `AudioAnalyzer._get_volume_description` (audio_analyzer.py lines 201-210). -/
noncomputable def get_volume_description (intensity : ℝ) : String :=
  if intensity > 3 then "非常に大きな音量ピーク"
  else if intensity > 2 then "大きな音量ピーク"
  else if intensity > 3/2 then "音量の盛り上がり"
  else "軽い音量上昇"

/-- `AudioAnalyzer.detect_volume_peaks` (audio_analyzer.py lines 76-117):
threshold `mean + multiplier * std`, peaks from `scipy.signal.find_peaks`
with that height and a frame-count distance, one `volume_peak` event per
accepted peak with intensity `(rms[peak] - mean) / std`.  scipy raises
`ValueError` when the distance is below 1, modelled as `.error`. -/
noncomputable def detect_volume_peaks (a : Analysis) (threshold_multiplier : ℚ := 3/2)
    (min_duration : ℚ := 2) : Except String (List Event) :=
  let mean_rms := npMean a.rms
  let std_rms := npStd a.rms
  let threshold : ℝ := (mean_rms : ℝ) + (threshold_multiplier : ℝ) * std_rms
  let distance : ℤ := pyInt (min_duration * a.sample_rate / (hopLength : ℚ))
  if distance < 1 then .error "ValueError: distance must be greater or equal to 1"
  else
    .ok ((find_peaks a.rms threshold distance.toNat).map (fun p =>
      { time := a.times.getD p 0
        type := "volume_peak"
        intensity := some (((a.rms.getD p 0 - mean_rms : ℚ) : ℝ) / std_rms)
        description := get_volume_description (((a.rms.getD p 0 - mean_rms : ℚ) : ℝ) / std_rms) }))

/-- `EventDetector._normalize` (event_detector.py lines 225-233): min-max
scale to `[0,1]`; an empty series is returned as is; a constant series
(`max - min = 0`) becomes all zeros (`np.zeros_like`). -/
def normalize (data : List ℚ) : List ℚ :=
  if data.length = 0 then data
  else
    let min_val := npMin data
    let max_val := npMax data
    if max_val - min_val > 0 then data.map (fun x => (x - min_val) / (max_val - min_val))
    else List.replicate data.length 0

/-- `EntertainmentDetector.event_weights` read through
`.get(type, 1.0)` (entertainment_detector.py lines 15-22, 120, 194). -/
def event_weights (t : String) : ℚ :=
  if t = "volume_peak" then 1
  else if t = "surprise" then 3/2
  else if t = "sustained_high_volume" then 6/5
  else if t = "laughter" then 13/10
  else if t = "applause" then 7/5
  else if t = "cheering" then 6/5
  else 1

/-- `EntertainmentDetector.event_emojis` read through `.get(type, '📍')`
(entertainment_detector.py lines 25-33, 171). -/
def event_emojis (t : String) : String :=
  if t = "volume_peak" then "🔊"
  else if t = "surprise" then "😱"
  else if t = "sustained_high_volume" then "🔥"
  else if t = "laughter" then "😂"
  else if t = "applause" then "👏"
  else if t = "cheering" then "🎉"
  else if t = "mixed" then "🎊"
  else "📍"

/-- `EntertainmentDetector._get_type_name` (entertainment_detector.py lines
205-215); unknown types name themselves. -/
def get_type_name (event_type : String) : String :=
  if event_type = "volume_peak" then "音量ピーク"
  else if event_type = "surprise" then "サプライズ"
  else if event_type = "sustained_high_volume" then "持続的盛り上がり"
  else if event_type = "laughter" then "笑い声"
  else if event_type = "applause" then "拍手"
  else if event_type = "cheering" then "歓声"
  else event_type

/-- Two-digit zero padding, Python `f'{n:02d}'` for `n ≥ 0`. -/
def pad2 (n : ℕ) : String := if n < 10 then "0" ++ toString n else toString n

/-- `EntertainmentDetector._format_time` (entertainment_detector.py lines
217-227): `td = timedelta(seconds=int(seconds))`; `td.seconds` is the
normalized within-day remainder `int(seconds) % 86400` (between 0 and 86399
even for negative inputs), from which hours, minutes and seconds are taken. -/
def format_time (seconds : ℚ) : String :=
  let td_seconds : ℕ := ((pyInt seconds) % 86400).toNat
  let hours := td_seconds / 3600
  let minutes := (td_seconds % 3600) / 60
  let secs := td_seconds % 60
  if hours > 0 then pad2 hours ++ ":" ++ pad2 minutes ++ ":" ++ pad2 secs
  else pad2 minutes ++ ":" ++ pad2 secs

/-- Python dict counting (`type_counts` in `_merge_event_group`, lines
129-131): keys in first-insertion order, values incremented in place. -/
def bump_count (acc : List (String × ℕ)) (t : String) : List (String × ℕ) :=
  if acc.any (fun p => p.1 = t) then
    acc.map (fun p => if p.1 = t then (p.1, p.2 + 1) else p)
  else acc ++ [(t, 1)]

/-- `type_counts` built over the event types in order. -/
def counts_in_order (ts : List String) : List (String × ℕ) := ts.foldl bump_count []

/-- The `description` built for a `mixed` merged group
(entertainment_detector.py lines 128-140): type names with counts, most
frequent first (Python `sorted(..., key=count, reverse=True)` is stable, as
is `mergeSort` with a `≥` comparator), at most three, joined by `、`. -/
def mixed_description (event_types : List String) : String :=
  let sorted_counts := (counts_in_order event_types).mergeSort (fun a b => decide (b.2 ≤ a.2))
  let descriptions := sorted_counts.map (fun p =>
    if p.2 > 1 then get_type_name p.1 ++ "×" ++ toString p.2 else get_type_name p.1)
  "複合イベント（" ++ String.intercalate "、" (descriptions.take 3) ++ "）"

/-- Placeholder for `events[0]` on an empty group, where Python would raise
`IndexError`; `_merge_event_group` is never called on an empty group. -/
def dummyEvent : Event := { time := 0, type := "" }

/-- `EntertainmentDetector._merge_event_group` (entertainment_detector.py
lines 97-150).  A group of exactly one event is returned unchanged (no
`event_count` key is added).  Otherwise: time of the first event; one shared
type or `mixed`; weight-averaged intensity (missing intensities default to
1); a description; and `event_count = len(events)`. -/
noncomputable def merge_event_group (events : List Event) : Event :=
  match events with
  | [e] => e
  | events =>
    let start_time := (events.headD dummyEvent).time
    let event_types := events.map (·.type)
    let main_type :=
      if event_types.all (fun t => t = (events.headD dummyEvent).type) then
        (events.headD dummyEvent).type
      else "mixed"
    let total_intensity : ℝ :=
      (events.map (fun e => (e.intensity.getD 1) * ((event_weights e.type : ℚ) : ℝ))).sum
    let total_weight : ℚ := (events.map (fun e => event_weights e.type)).sum
    let avg_intensity : ℝ := if total_weight > 0 then total_intensity / (total_weight : ℝ) else 1
    let description :=
      if main_type = "mixed" then mixed_description event_types else get_type_name main_type
    { time := start_time
      type := main_type
      intensity := some avg_intensity
      description := description
      event_count := some events.length }

/-- The grouping loop of `EntertainmentDetector._merge_nearby_events`
(entertainment_detector.py lines 79-93): `cur` is the current group (always
nonempty), `prev` the previously visited event; an event within `threshold`
of `prev` joins the group, otherwise the group is closed through
`_merge_event_group` and a new group starts. -/
noncomputable def merge_go (threshold : ℚ) : List Event → List Event → Event → List Event
  | [], cur, _ => if cur.isEmpty then [] else [merge_event_group cur]
  | x :: rest, cur, prev =>
    if x.time - prev.time ≤ threshold then merge_go threshold rest (cur ++ [x]) x
    else merge_event_group cur :: merge_go threshold rest [x] x

/-- `EntertainmentDetector._merge_nearby_events` (entertainment_detector.py
lines 71-95). -/
noncomputable def merge_nearby_events (events : List Event) (threshold : ℚ) : List Event :=
  match events with
  | [] => []
  | e :: rest => merge_go threshold rest [e] e

/-- A section dictionary (`_create_sections`, entertainment_detector.py
lines 152-167).  `priority_score` is added later by `_prioritize_sections`
and is modelled as a separate component there; `content` / `full_text` are
added by `_add_content_from_transcription` when a transcription is given. -/
structure Section where
  start_time : ℚ
  start_time_str : String
  title : String
  type : String
  intensity : ℝ
  event_count : ℕ
  content : Option String := none
  full_text : Option String := none

open Classical in
/-- `EntertainmentDetector._create_section_title` (entertainment_detector.py
lines 169-188). -/
noncomputable def create_section_title (event : Event) : String :=
  let emoji := event_emojis event.type
  let description := event.description
  let intensity := event.intensity.getD 1
  let pfx : String := if intensity > 2 then "大" else if intensity > 3/2 then "" else "小"
  if pfx ≠ "" ∧ ¬ description.startsWith "複合" then emoji ++ " " ++ pfx ++ description
  else emoji ++ " " ++ description

/-- `EntertainmentDetector._create_sections` (entertainment_detector.py
lines 152-167); the `min_gap` parameter is accepted and unused, as in the
source.  Missing `intensity` defaults to 1 and missing `event_count` to 1
(`dict.get`). -/
noncomputable def create_sections (events : List Event) (min_gap : ℚ) : List Section :=
  let _ := min_gap
  events.map (fun event =>
    { start_time := event.time
      start_time_str := format_time event.time
      title := create_section_title event
      type := event.type
      intensity := event.intensity.getD 1
      event_count := event.event_count.getD 1 })

/-- Python `str.replace` with a single-character pattern, on the code-point
list of a string. -/
def replace_char (c : Char) (r : List Char) : List Char → List Char
  | [] => []
  | x :: xs => if x = c then r ++ replace_char c r xs else x :: replace_char c r xs

/-- Python `str.split` with a single-character separator (`''.split(c)` is
`['']`, matching the `[[]]` base case). -/
def split_char (c : Char) : List Char → List (List Char)
  | [] => [[]]
  | x :: xs =>
    if x = c then [] :: split_char c xs
    else
      match split_char c xs with
      | [] => [[x]]
      | y :: ys => (x :: y) :: ys

/-- Python `str.strip()`: whitespace removed from both ends. -/
def py_strip (l : List Char) : List Char :=
  ((l.dropWhile Char.isWhitespace).reverse.dropWhile Char.isWhitespace).reverse

/-- `EntertainmentDetector._summarize_content` (entertainment_detector.py
lines 271-292): split on `。` and `、` (by inserting and splitting on
newlines), strip, drop empty fragments, and return the first fragment longer
than 5 characters, truncated to `max_length` with an ellipsis. -/
def summarize_content (text : String) (max_length : ℕ := 30) : String :=
  if text = "" then ""
  else
    let pieces := split_char '\n'
      (replace_char '、' ['、', '\n'] (replace_char '。' ['。', '\n'] text.data))
    let sentences := (pieces.map py_strip).filter (fun s => ¬ s.isEmpty)
    if sentences.isEmpty then String.mk (text.data.take max_length)
    else
      match sentences.find? (fun s => s.length > 5) with
      | some sentence =>
        if sentence.length ≤ max_length then String.mk sentence
        else String.mk (sentence.take (max_length - 3)) ++ "..."
      | none => String.mk ((sentences.headD []).take (max_length - 3)) ++ "..."

/-- The `full_text` stored by `_add_content_from_transcription`
(entertainment_detector.py line 267):
`full_text[:200] + '...' if len(full_text) > 200 else full_text`. -/
def store_full_text (full_text : String) : String :=
  if full_text.length > 200 then String.mk (full_text.data.take 200) ++ "..."
  else full_text

/-- A transcript segment; the code only ever reads the keys `start` and
`text`, and either may be missing (`Option`), in which case access raises
`KeyError`. -/
structure Segment where
  start : Option ℚ := none
  text : Option String := none
deriving DecidableEq

/-- The transcription dictionary: the code reads
`transcription.get('segments', [])`. -/
structure Transcription where
  segments : List Segment := []

/-- The closest-segment search of `_add_content_from_transcription`
(entertainment_detector.py lines 239-246): a fold over the segments keeping
the first segment of minimal `|start - section_time|`; `min_time_diff`
starts at infinity (`none`).  Accessing a missing `start` raises. -/
def fc_go (t : ℚ) : List Segment → Option Segment → Option ℚ → Except String (Option Segment)
  | [], best, _ => .ok best
  | seg :: rest, best, best_d =>
    match seg.start with
    | none => .error "KeyError: start"
    | some st =>
      let d := |st - t|
      match best_d with
      | none => fc_go t rest (some seg) (some d)
      | some m => if d < m then fc_go t rest (some seg) (some d) else fc_go t rest best best_d

/-- `closest_segment` search, started with no candidate. -/
def find_closest (segments : List Segment) (t : ℚ) : Except String (Option Segment) :=
  fc_go t segments none none

/-- The gathering loop of `_add_content_from_transcription`
(entertainment_detector.py lines 257-259): over the index window, keep the
`text` of segments whose `start` is within 15 seconds of the section time.
Both key accesses can raise. -/
def gather_content (segments : List Segment) (t : ℚ) : List ℕ → Except String (List String)
  | [] => .ok []
  | i :: rest =>
    match (segments.getD i {}).start with
    | none => .error "KeyError: start"
    | some st =>
      if |st - t| ≤ 15 then
        match (segments.getD i {}).text with
        | none => .error "KeyError: text"
        | some tx =>
          match gather_content segments t rest with
          | .error e => .error e
          | .ok txs => .ok (tx :: txs)
      else gather_content segments t rest

/-- The per-section body of `_add_content_from_transcription`
(entertainment_detector.py lines 235-267): find the closest segment, take
the window from one before it to two after it, gather nearby text, and store
the summary as `content` and the (truncated) concatenation as `full_text`. -/
def process_section (segments : List Segment) (sec : Section) : Except String Section :=
  match find_closest segments sec.start_time with
  | .error e => .error e
  | .ok none => .ok sec
  | .ok (some closest) =>
    let segment_idx := segments.indexOf closest
    let start_idx := segment_idx - 1
    let end_idx := min segments.length (segment_idx + 3)
    match gather_content segments sec.start_time (List.range' start_idx (end_idx - start_idx)) with
    | .error e => .error e
    | .ok content_segments =>
      let full_text := String.intercalate " " content_segments
      .ok { sec with content := some (summarize_content full_text)
                     full_text := some (store_full_text full_text) }

/-- The `for section in sections` loop of `_add_content_from_transcription`:
sections are processed in order and the first `KeyError` aborts the call. -/
def add_go (segments : List Segment) : List Section → Except String (List Section)
  | [] => .ok []
  | s :: rest =>
    match process_section segments s with
    | .error e => .error e
    | .ok s2 =>
      match add_go segments rest with
      | .error e => .error e
      | .ok rest2 => .ok (s2 :: rest2)

/-- `EntertainmentDetector._add_content_from_transcription`
(entertainment_detector.py lines 229-269). -/
def add_content_from_transcription (sections : List Section) (transcription : Transcription) :
    Except String (List Section) :=
  if transcription.segments.isEmpty then .ok sections
  else add_go transcription.segments sections

/-- The priority score attached by `_prioritize_sections`
(entertainment_detector.py line 199):
`type_weight * intensity * (1 + np.log(event_count))`. -/
noncomputable def section_score (s : Section) : ℝ :=
  ((event_weights s.type : ℚ) : ℝ) * s.intensity * (1 + Real.log (s.event_count : ℝ))

/-- `EntertainmentDetector._prioritize_sections` (entertainment_detector.py
lines 190-203): attach a priority score to every section (modelled as the
second pair component, the code adds a dict key), then return the sections
sorted ascending by `start_time` (Python's stable `sorted`). -/
noncomputable def prioritize_sections (sections : List Section) : List (Section × ℝ) :=
  (sections.map (fun s => (s, section_score s))).mergeSort
    (fun a b => decide (a.1.start_time ≤ b.1.start_time))

/-- `EntertainmentDetector.detect_sections` (entertainment_detector.py lines
35-69): empty input short-circuits to `[]`; otherwise sort events by time,
merge nearby events, build sections, optionally attach transcript content
(which can raise `KeyError`), and prioritize. -/
noncomputable def detect_sections (all_events : List Event) (transcription : Option Transcription)
    (min_gap : ℚ := 10) (merge_threshold : ℚ := 5) : Except String (List (Section × ℝ)) :=
  if all_events.isEmpty then .ok []
  else
    let sorted_events := all_events.mergeSort (fun a b => decide (a.time ≤ b.time))
    let merged_events := merge_nearby_events sorted_events merge_threshold
    let sections := create_sections merged_events min_gap
    match transcription with
    | some tr => (add_content_from_transcription sections tr).map prioritize_sections
    | none => .ok (prioritize_sections sections)

/-- Lifts a predicate over the success value of an `Except` result (used to
state properties of `detect_sections` without naming its error branch). -/
def except_holds {ε α : Type} (P : α → Prop) : Except ε α → Prop
  | .ok a => P a
  | .error _ => True

/-! ## Concrete inputs used by the claim theorems -/

/-- The spec scenario's rms series for claim C1: `[0.01]*5 + [0.3] + [0.01]*5`. -/
def c1_rms : List ℚ := List.replicate 5 (1/100) ++ [3/10] ++ List.replicate 5 (1/100)

/-- The same series with the quiet frames strictly below the silence
threshold (`0.009` instead of `0.01`). -/
def c1_rms_quiet : List ℚ := List.replicate 5 (9/1000) ++ [3/10] ++ List.replicate 5 (9/1000)

/-- Frame times for the eleven-frame scenario. -/
def c1_times : List ℚ := [0, 1, 2, 3, 4, 5, 6, 7, 8, 9, 10]

/-- The analysis record for the spec scenario of claim C1. -/
def c1_analysis : Analysis := { rms := c1_rms, times := c1_times, sample_rate := 22050 }

/-- The analysis record for the strictly-quiet variant. -/
def c1_analysis_quiet : Analysis := { rms := c1_rms_quiet, times := c1_times, sample_rate := 22050 }

/-- A section with no transcript content attached yet (claims C2 and C5). -/
def plain_section : Section :=
  { start_time := 0, start_time_str := "00:00", title := "t", type := "volume_peak",
    intensity := 1, event_count := 1 }

/-- A transcript whose single segment is missing the `start` key (claim C2). -/
def c2_transcription : Transcription := { segments := [{ text := some "hi" }] }

/-- A 12-frame series for claim C3 whose rms (`[1]*5 ++ [10]*7`, mean `6.25`,
threshold `8.125`) stays above threshold from frame 5 through the final
frame 11. -/
def c3_rms : List ℚ := List.replicate 5 1 ++ List.replicate 7 10

/-- One-second frame times for the 12-frame series. -/
def c3_times : List ℚ := [0, 1, 2, 3, 4, 5, 6, 7, 8, 9, 10, 11]

/-- The analysis record for the trailing-run series of claim C3. -/
def c3_analysis : Analysis := { rms := c3_rms, times := c3_times, sample_rate := 22050 }

/-- An event dictionary as a detector produces it: no `event_count` key
(claim C4). -/
def c4_event : Event :=
  { time := 1, type := "volume_peak", intensity := some 1, description := "軽い音量上昇" }

/-- A transcript text of 201 characters (claim C5). -/
def c5_text : String := String.mk (List.replicate 201 'a')

/-- A transcript whose single segment carries the 201-character text at
time 0 (claim C5). -/
def c5_transcription : Transcription := { segments := [{ start := some 0, text := some c5_text }] }

/-- First witness event: `volume_peak` at time 0 (claims C4 and C6). -/
def w_event_a : Event :=
  { time := 0, type := "volume_peak", intensity := some 1, description := "軽い音量上昇" }

/-- Second witness event: `surprise` at time 10, more than 5 seconds after
`w_event_a` (claims C4 and C6). -/
def w_event_b : Event :=
  { time := 10, type := "surprise", intensity := some 2, description := "静寂からの急激な音量上昇" }

/-! ## Helper lemmas -/

/-- A group of exactly one event is returned unchanged by
`_merge_event_group`. -/
theorem merge_event_group_singleton (e : Event) : merge_event_group [e] = e := by
  simp [merge_event_group]

/-- When every later event is more than `threshold` after its predecessor,
the grouping loop degenerates to singleton groups and reproduces its input. -/
theorem merge_go_far (threshold : ℚ) :
    ∀ (rest : List Event) (p : Event),
      List.Chain' (fun a b => threshold < b.time - a.time) (p :: rest) →
      merge_go threshold rest [p] p = p :: rest := by
  intro rest
  induction rest with
  | nil => intro p _; simp [merge_go, merge_event_group]
  | cons x xs ih =>
    intro p h
    rw [List.chain'_cons] at h
    have hx : ¬ (x.time - p.time ≤ threshold) := not_le.mpr h.1
    simp only [merge_go, hx, if_false]
    rw [merge_event_group_singleton, ih x h.2]

/-- For a nonempty group of events that carry no `event_count` key, the
merged event's `event_count`, read with default 1, is the group size. -/
theorem group_count (g : List Event) (hg : g ≠ [])
    (h : ∀ e ∈ g, e.event_count = none) :
    (merge_event_group g).event_count.getD 1 = g.length := by
  match g with
  | [e] => simp [merge_event_group, h e (by simp)]
  | e :: f :: t => simp [merge_event_group]

/-- Summing `event_count` (default 1) over the groups produced by the
grouping loop counts every input event exactly once. -/
theorem merge_go_count (threshold : ℚ) :
    ∀ (rest cur : List Event) (prev : Event), cur ≠ [] →
      (∀ e ∈ cur, e.event_count = none) → (∀ e ∈ rest, e.event_count = none) →
      ((merge_go threshold rest cur prev).map (fun e => e.event_count.getD 1)).sum =
        cur.length + rest.length := by
  intro rest
  induction rest with
  | nil =>
    intro cur prev hc h1 _
    have hce : ¬ (cur.isEmpty = true) := by simpa using hc
    simp only [merge_go, hce, if_false]
    simp [group_count cur hc h1]
  | cons x xs ih =>
    intro cur prev hc h1 h2
    have hx2 : x.event_count = none := h2 x (by simp)
    have hxs : ∀ e ∈ xs, e.event_count = none := fun e he => h2 e (by simp [he])
    by_cases hx : x.time - prev.time ≤ threshold
    · simp only [merge_go, hx, if_true]
      have hcur : ∀ e ∈ cur ++ [x], e.event_count = none := by
        intro e he
        rcases List.mem_append.mp he with h | h
        · exact h1 e h
        · simp at h; rw [h]; exact hx2
      rw [ih (cur ++ [x]) x (by simp) hcur hxs]
      simp; omega
    · simp only [merge_go, hx, if_false, List.map_cons, List.sum_cons]
      have hone : ∀ e ∈ [x], e.event_count = none := by
        intro e he; simp at he; rw [he]; exact hx2
      rw [group_count cur hc h1, ih [x] x (by simp) hone hxs]
      simp; omega

/-- The scan of `sus_go` agrees with filtering the maximal `true` runs: a
run `[s, e)` produces an event exactly when it is closed by a below-threshold
frame (`e < i + mask.length`) and is long enough; in particular a run still
open at the end of the mask (reported by `runs_go` with `e = i + mask.length`)
never produces an event. -/
theorem sus_go_eq_runs (rms times : List ℚ) (mean_rms min_duration : ℚ)
    (mask : List Bool) (i : ℕ) (st : Option ℕ) (n : ℕ) (hn : n = i + mask.length) :
    sus_go rms times mean_rms min_duration mask i st =
      ((runs_go mask i st).filter (fun p =>
          decide (p.2 < n) && decide (times.getD p.2 0 - times.getD p.1 0 ≥ min_duration))).map
        (fun p => sustained_event rms times mean_rms p.1 p.2) := by
  induction mask generalizing i st n with
  | nil =>
    cases st with
    | none => simp [sus_go, runs_go]
    | some s =>
      simp only [List.length_nil] at hn
      have h1 : ¬ (i < n) := by omega
      simp [sus_go, runs_go, List.filter_cons, h1]
  | cons b rest ih =>
    simp only [List.length_cons] at hn
    cases st with
    | none =>
      by_cases hb : b
      · simp only [sus_go, runs_go, hb, if_true]
        exact ih (i+1) (some i) n (by omega)
      · simp only [sus_go, runs_go, hb, if_false]
        exact ih (i+1) none n (by omega)
    | some s =>
      by_cases hb : b
      · simp only [sus_go, runs_go, hb, if_true]
        exact ih (i+1) (some s) n (by omega)
      · have hin : i < n := by omega
        simp [sus_go, runs_go, hb, List.filter_cons, hin, ih (i+1) none n (by omega)]
        split <;> simp

/-- `getD` on a constant list. -/
theorem getD_replicate (n : ℕ) (c : ℚ) (i : ℕ) (d : ℚ) :
    (List.replicate n c).getD i d = if i < n then c else d := by
  simp [List.getD, List.getElem?_replicate]
  split <;> simp

/-- On a constant series the `x[i-1] < x[i]` test of `_local_maxima_1d`
never fires, so the scan finds nothing. -/
theorem lm_go_replicate (n : ℕ) (c : ℚ) (iMax : ℕ) (hle : iMax ≤ n) :
    ∀ (fuel i : ℕ), lm_go (List.replicate n c) iMax fuel i = [] := by
  intro fuel
  induction fuel with
  | zero => intro i; simp [lm_go]
  | succ fuel ih =>
    intro i
    by_cases hi : i < iMax
    · have h1 : (List.replicate n c).getD (i-1) 0 = c := by
        rw [getD_replicate]; rw [if_pos (by omega)]
      have h2 : (List.replicate n c).getD i 0 = c := by
        rw [getD_replicate]; rw [if_pos (by omega)]
      simp only [lm_go, hi, if_true, h1, h2, lt_self_iff_false, if_false]
      exact ih (i+1)
    · simp [lm_go, hi]

/-- A constant series has no local maxima. -/
theorem local_maxima_replicate (n : ℕ) (c : ℚ) :
    local_maxima (List.replicate n c) = [] := by
  unfold local_maxima
  rw [List.length_replicate]
  exact lm_go_replicate n c (n-1) (by omega) n 1

/-- `find_peaks` accepts no peak of a constant series, whatever the height
requirement and distance. -/
theorem find_peaks_replicate (n : ℕ) (c : ℚ) (h : ℝ) (d : ℕ) :
    find_peaks (List.replicate n c) h d = [] := by
  unfold find_peaks
  rw [local_maxima_replicate]
  simp [select_by_peak_distance, sbd_go]

/-- An all-`true` mask never transitions back below threshold, so the
sustained-volume scan emits nothing. -/
theorem sus_go_all_true (rms times : List ℚ) (m d : ℚ) :
    ∀ (n i : ℕ) (st : Option ℕ), sus_go rms times m d (List.replicate n true) i st = [] := by
  intro n
  induction n with
  | zero => intro i st; cases st <;> simp [sus_go]
  | succ n ih =>
    intro i st
    rw [List.replicate_succ]
    cases st <;> simp [sus_go, ih]

/-- An all-`false` mask never opens a run. -/
theorem sus_go_all_false (rms times : List ℚ) (m d : ℚ) :
    ∀ (n i : ℕ), sus_go rms times m d (List.replicate n false) i none = [] := by
  intro n
  induction n with
  | zero => intro i; simp [sus_go]
  | succ n ih =>
    intro i
    rw [List.replicate_succ]
    simp [sus_go, ih]

/-- Folding `min` yields either the start value or a list member, bounded
above by the start value and by every member. -/
theorem foldl_min_spec :
    ∀ (xs : List ℚ) (a : ℚ),
      (xs.foldl min a = a ∨ xs.foldl min a ∈ xs) ∧
      xs.foldl min a ≤ a ∧ ∀ y ∈ xs, xs.foldl min a ≤ y := by
  intro xs
  induction xs with
  | nil => intro a; simp
  | cons x t ih =>
    intro a
    simp only [List.foldl_cons]
    obtain ⟨hmem, hle, hall⟩ := ih (min a x)
    refine ⟨?_, le_trans hle (min_le_left a x), ?_⟩
    · rcases hmem with h | h
      · rcases le_total a x with hax | hxa
        · left; rw [h, min_eq_left hax]
        · right; rw [h, min_eq_right hxa]; simp
      · right; simp [h]
    · intro y hy
      rcases List.mem_cons.mp hy with h | h
      · rw [h]; exact le_trans hle (min_le_right a x)
      · exact hall y h

/-- Folding `max`, dually. -/
theorem foldl_max_spec :
    ∀ (xs : List ℚ) (a : ℚ),
      (xs.foldl max a = a ∨ xs.foldl max a ∈ xs) ∧
      a ≤ xs.foldl max a ∧ ∀ y ∈ xs, y ≤ xs.foldl max a := by
  intro xs
  induction xs with
  | nil => intro a; simp
  | cons x t ih =>
    intro a
    simp only [List.foldl_cons]
    obtain ⟨hmem, hle, hall⟩ := ih (max a x)
    refine ⟨?_, le_trans (le_max_left a x) hle, ?_⟩
    · rcases hmem with h | h
      · rcases le_total a x with hax | hxa
        · right; rw [h, max_eq_right hax]; simp
        · left; rw [h, max_eq_left hxa]
      · right; simp [h]
    · intro y hy
      rcases List.mem_cons.mp hy with h | h
      · rw [h]; exact le_trans (le_max_right a x) hle
      · exact hall y h

/-- `npMin` on a cons cell. -/
theorem npMin_cons (x : ℚ) (xs : List ℚ) : npMin (x :: xs) = xs.foldl min x := rfl

/-- `npMax` on a cons cell. -/
theorem npMax_cons (x : ℚ) (xs : List ℚ) : npMax (x :: xs) = xs.foldl max x := rfl

/-- The minimum of a nonempty list is a member. -/
theorem npMin_mem (l : List ℚ) (h : l ≠ []) : npMin l ∈ l := by
  match l with
  | x :: xs =>
    rw [npMin_cons]
    rcases (foldl_min_spec xs x).1 with h1 | h1
    · rw [h1]; simp
    · simp [h1]

/-- The minimum bounds every member from below. -/
theorem npMin_le (l : List ℚ) (y : ℚ) (hy : y ∈ l) : npMin l ≤ y := by
  match l with
  | x :: xs =>
    rw [npMin_cons]
    rcases List.mem_cons.mp hy with h | h
    · rw [h]; exact (foldl_min_spec xs x).2.1
    · exact (foldl_min_spec xs x).2.2 y h

/-- The maximum of a nonempty list is a member. -/
theorem npMax_mem (l : List ℚ) (h : l ≠ []) : npMax l ∈ l := by
  match l with
  | x :: xs =>
    rw [npMax_cons]
    rcases (foldl_max_spec xs x).1 with h1 | h1
    · rw [h1]; simp
    · simp [h1]

/-- The maximum bounds every member from above. -/
theorem le_npMax (l : List ℚ) (y : ℚ) (hy : y ∈ l) : y ≤ npMax l := by
  match l with
  | x :: xs =>
    rw [npMax_cons]
    rcases List.mem_cons.mp hy with h | h
    · rw [h]; exact (foldl_max_spec xs x).2.1
    · exact (foldl_max_spec xs x).2.2 y h

/-- The closest-segment fold raises `KeyError` whenever some segment lacks
the `start` key, regardless of the fold state. -/
theorem fc_go_error (t : ℚ) :
    ∀ (segs : List Segment) (best : Option Segment) (best_d : Option ℚ),
      (∃ seg ∈ segs, seg.start = none) →
      fc_go t segs best best_d = .error "KeyError: start" := by
  intro segs
  induction segs with
  | nil => intro best best_d h; simp at h
  | cons seg rest ih =>
    intro best best_d h
    cases hs : seg.start with
    | none => simp [fc_go, hs]
    | some st =>
      have hrest : ∃ s ∈ rest, s.start = none := by
        obtain ⟨s, hmem, hnone⟩ := h
        rcases List.mem_cons.mp hmem with heq | hmem2
        · rw [heq] at hnone; rw [hnone] at hs; cases hs
        · exact ⟨s, hmem2, hnone⟩
      cases best_d with
      | none => simp [fc_go, hs, ih _ _ hrest]
      | some m =>
        simp only [fc_go, hs]
        split <;> exact ih _ _ hrest

/-- The sorted output of `_prioritize_sections`: `mergeSort` by `start_time`
is pairwise nondecreasing in `start_time`. -/
theorem prioritize_sections_sorted (ss : List Section) :
    List.Pairwise (fun a b : Section × ℝ => a.1.start_time ≤ b.1.start_time)
      (prioritize_sections ss) := by
  unfold prioritize_sections
  have h := @List.sorted_mergeSort (Section × ℝ)
    (fun a b => decide (a.1.start_time ≤ b.1.start_time))
    (fun a b c hab hbc =>
      decide_eq_true (le_trans (of_decide_eq_true hab) (of_decide_eq_true hbc)))
    (fun a b => by
      rcases le_total a.1.start_time b.1.start_time with h | h <;>
        simp [decide_eq_true h])
    (ss.map (fun s => (s, section_score s)))
  exact h.imp (fun hab => of_decide_eq_true hab)

/-- `_format_time` only looks at `int(seconds) % 86400`. -/
theorem format_time_congr (s1 s2 : ℚ) (h : pyInt s1 % 86400 = pyInt s2 % 86400) :
    format_time s1 = format_time s2 := by
  unfold format_time
  rw [h]

/-! ## Claim theorems -/

/-- C1, counterexample.  On the spec scenario `rms = [0.01]*5 + [0.3] +
[0.01]*5` with `silenceThreshold = 0.01` and `loudThreshold = 0.1`, the
Silence-to-Loud detector returns no events at all — not the one `surprise`
event the claim demands — because a frame with `rms` exactly `0.01` fails
the strict test `rms < silenceThreshold`, so frame 4 is not silent. -/
theorem c1_scenario_counterexample :
    detect_silence_to_loud c1_analysis (1/100) (1/10) 1 = [] := by
  norm_num [detect_silence_to_loud, stl_check, c1_analysis, c1_rms, c1_times,
    List.replicate, pyInt, npMean, pySlice, hopLength, List.getElem?_cons,
    min_def, max_def, List.range', List.filterMap_cons]

/-- C1, amended.  With `silenceThreshold = 0.01` and `loudThreshold = 0.1`,
the scenario series `[0.01]*5 + [0.3] + [0.01]*5` produces no event, because
a frame is silent only when its `rms` is strictly below the silence
threshold; lowering the quiet frames to `0.009` produces exactly one
`surprise` event at the time of the frame where `rms` jumps to `0.3`
(frame 5, time 5), with intensity `0.3 / 0.01 = 30`. -/
theorem c1_amended_strict_silence :
    detect_silence_to_loud c1_analysis (1/100) (1/10) 1 = [] ∧
    detect_silence_to_loud c1_analysis_quiet (1/100) (1/10) 1 =
      [{ time := 5, type := "surprise", intensity := some 30,
         description := "静寂からの急激な音量上昇" }] := by
  constructor
  · norm_num [detect_silence_to_loud, stl_check, c1_analysis, c1_rms, c1_times,
      List.replicate, pyInt, npMean, pySlice, hopLength, List.getElem?_cons,
      min_def, max_def, List.range', List.filterMap_cons]
  · norm_num [detect_silence_to_loud, stl_check, c1_analysis_quiet, c1_rms_quiet, c1_times,
      List.replicate, pyInt, npMean, pySlice, hopLength, List.getElem?_cons,
      min_def, max_def, List.range', List.filterMap_cons]

/-- C2, counterexample.  On a nonempty section list and a transcript whose
single segment lacks the `start` key, content attachment does not skip the
segment and return the sections: it aborts with a `KeyError`. -/
theorem c2_counterexample_keyerror :
    add_content_from_transcription [plain_section] c2_transcription =
      .error "KeyError: start" := by
  rfl

/-- C2, amended.  For every nonempty section list and every transcript whose
segment list contains an entry missing the `start` field, content attachment
(`_add_content_from_transcription`) aborts with a `KeyError` instead of
skipping the segment: the closest-segment search reads `segment['start']` of
every segment unguarded, so section building is aborted by a malformed
transcript entry rather than degrading to "no content". -/
theorem c2_amended_missing_start_aborts (sections : List Section) (tr : Transcription)
    (h1 : sections ≠ []) (h2 : ∃ seg ∈ tr.segments, seg.start = none) :
    ∃ msg, add_content_from_transcription sections tr = .error msg := by
  refine ⟨"KeyError: start", ?_⟩
  have hsegs : ¬ (tr.segments.isEmpty = true) := by
    obtain ⟨s, hmem, _⟩ := h2
    cases hseg : tr.segments with
    | nil => rw [hseg] at hmem; simp at hmem
    | cons a b => simp [hseg]
  unfold add_content_from_transcription
  rw [if_neg hsegs]
  cases sections with
  | nil => exact absurd rfl h1
  | cons s rest =>
    unfold add_go process_section find_closest
    rw [fc_go_error _ _ _ _ h2]

/-- C2, witness for the amended theorem at the concrete counterexample
input. -/
theorem c2_amended_missing_start_aborts_witness :
    ([plain_section] ≠ ([] : List Section)) ∧
    (∃ seg ∈ c2_transcription.segments, seg.start = none) ∧
    ∃ msg, add_content_from_transcription [plain_section] c2_transcription = .error msg := by
  refine ⟨by simp, ⟨{ text := some "hi" }, by simp [c2_transcription], rfl⟩, ?_⟩
  exact c2_amended_missing_start_aborts [plain_section] c2_transcription (by simp)
    ⟨{ text := some "hi" }, by simp [c2_transcription], rfl⟩

/-- C3, counterexample.  On `rms = [1]*5 ++ [10]*7` (mean 6.25, threshold
8.125) with one-second frames, the frames above threshold form the single
maximal run `[5, 12)`, which extends to the final frame and lasts
`times[11] - times[5] = 6 ≥ 5 = minDuration`; the claim demands one event
for this qualifying run, but the detector returns no events. -/
theorem c3_counterexample_trailing_run :
    detect_sustained_high_volume c3_analysis (13/10) 5 = [] ∧
    true_runs (c3_rms.map (fun r => decide (r > npMean c3_rms * (13/10)))) = [(5, 12)] ∧
    c3_times.getD 11 0 - c3_times.getD 5 0 = 6 ∧ (5:ℚ) ≤ 6 := by
  refine ⟨?_, ?_, ?_, by norm_num⟩
  · norm_num [detect_sustained_high_volume, sus_go, c3_analysis, c3_rms, c3_times,
      List.replicate, npMean]
  · norm_num [true_runs, runs_go, c3_rms, List.replicate, npMean]
  · norm_num [c3_times, List.getElem?_cons]

/-- C3, amended.  For every rms series, the Sustained-High-Volume detector
emits exactly one event for every maximal contiguous run of frames with
`rms` above `mean(rms) * multiplier` that is closed by a later
below-threshold frame and whose duration `times[end] - times[start]` is at
least `minDuration`, at the run's start time, with
`intensity = mean(rms over run) / mean(rms)` and the `duration` field set —
but a qualifying run that extends to the final frame of the series is
dropped, because the scan only emits on a transition back below threshold:
the detector output equals `sustained_spec_events`, the run-based reference
computation restricted to runs with `end < length`. -/
theorem c3_amended_sustained_runs (a : Analysis) (threshold_multiplier min_duration : ℚ) :
    detect_sustained_high_volume a threshold_multiplier min_duration =
      sustained_spec_events a.rms a.times threshold_multiplier min_duration := by
  unfold detect_sustained_high_volume sustained_spec_events true_runs
  rw [sus_go_eq_runs _ _ _ _ _ 0 none a.rms.length (by simp)]

/-- C4, counterexample.  A merged group of size 1 does not gain an
`eventCount` field equal to 1: the single event passes through entirely
unchanged, still with no `event_count` key (`none`), because
`_merge_event_group` returns `events[0]` before adding any key. -/
theorem c4_counterexample_singleton_unchanged :
    merge_nearby_events [c4_event] 5 = [c4_event] ∧
    (merge_nearby_events [c4_event] 5).map Event.event_count = [none] ∧
    c4_event.event_count ≠ some 1 := by
  refine ⟨?_, ?_, by simp [c4_event]⟩
  · simp [merge_nearby_events, merge_go, merge_event_group]
  · simp [merge_nearby_events, merge_go, merge_event_group, c4_event]

/-- C4, amended.  Every merged group of size 1 passes through the Event
Merger with all its original fields preserved and no `eventCount` field
added (`_merge_event_group` returns the event itself); the Section Builder
later reads the missing field with default 1.  Consequently, for every
event list whose members carry no `event_count` key (as all detector events
do), the sum over the merger's output of `event_count` read with default 1
equals the number of input events. -/
theorem c4_amended_group_counts (events : List Event) (threshold : ℚ)
    (h : ∀ e ∈ events, e.event_count = none) :
    (∀ e : Event, merge_event_group [e] = e) ∧
    ((merge_nearby_events events threshold).map (fun e => e.event_count.getD 1)).sum =
      events.length := by
  refine ⟨merge_event_group_singleton, ?_⟩
  cases events with
  | nil => simp [merge_nearby_events]
  | cons e rest =>
    unfold merge_nearby_events
    rw [merge_go_count threshold rest [e] e (by simp)
      (by intro y hy; simp at hy; rw [hy]; exact h e (by simp))
      (by intro y hy; exact h y (by simp [hy]))]
    simp; omega

/-- C4, witness for the amended theorem on two far-apart events without
`event_count` keys. -/
theorem c4_amended_group_counts_witness :
    (∀ e ∈ [w_event_a, w_event_b], e.event_count = none) ∧
    ((merge_nearby_events [w_event_a, w_event_b] 5).map (fun e => e.event_count.getD 1)).sum = 2 := by
  have hnone : ∀ e ∈ [w_event_a, w_event_b], e.event_count = none := by
    intro e he
    rcases List.mem_cons.mp he with h | h
    · rw [h]; rfl
    · simp at h; rw [h]; rfl
  refine ⟨hnone, ?_⟩
  have h := (c4_amended_group_counts [w_event_a, w_event_b] 5 hnone).2
  simpa using h

/-- C5, counterexample.  With a single transcript segment carrying a
201-character text at the section's time, the gathered text is that
201-character string, and the stored `full_text` is 203 characters long —
`full_text[:200] + '...'` — not at most 200 as claimed. -/
theorem c5_counterexample_full_text_203 :
    (add_content_from_transcription [plain_section] c5_transcription).map
        (fun l => l.map (fun sec => sec.full_text.map String.length)) =
      .ok [some 203] ∧ ¬ ((203:ℕ) ≤ 200) := by
  refine ⟨?_, by norm_num⟩
  have hfc : find_closest c5_transcription.segments plain_section.start_time =
      .ok (some { start := some 0, text := some c5_text }) := by
    norm_num [find_closest, fc_go, c5_transcription, plain_section]
  have hgather : gather_content [{ start := some 0, text := some c5_text }]
      plain_section.start_time [0] = .ok [c5_text] := by
    norm_num [gather_content, plain_section]
  have hfull : String.intercalate " " [c5_text] = c5_text := rfl
  have hlen : c5_text.length = 201 := by
    rw [c5_text, String.length_mk, List.length_replicate]
  have hstore : (store_full_text c5_text).length = 203 := by
    unfold store_full_text
    rw [if_pos (by omega)]
    rw [String.length_append]
    have h200 : (String.mk (c5_text.data.take 200)).length = 200 := by
      rw [String.length_mk, List.length_take]
      have : c5_text.data.length = 201 := hlen
      omega
    rw [h200]
    rfl
  unfold add_content_from_transcription
  rw [if_neg (by simp [c5_transcription])]
  unfold add_go process_section
  rw [hfc]
  simp only []
  rw [show c5_transcription.segments = [{ start := some 0, text := some c5_text }] from rfl]
  rw [List.indexOf_cons_self]
  norm_num [List.range', hgather]
  rw [hfull]
  simp [add_go, Except.map, hstore]

/-- C5, amended.  For every gathered transcript text longer than 200
characters, the stored `full_text` is the first 200 characters followed by
`'...'`, hence exactly 203 characters long (not at most 200); for text of
200 characters or fewer, `full_text` equals the gathered text unchanged. -/
theorem c5_amended_truncation (s : String) :
    (s.length > 200 →
      store_full_text s = String.mk (s.data.take 200) ++ "..." ∧
      (store_full_text s).length = 203) ∧
    (s.length ≤ 200 → store_full_text s = s) := by
  constructor
  · intro h
    have hs : store_full_text s = String.mk (s.data.take 200) ++ "..." := by
      unfold store_full_text
      rw [if_pos h]
    refine ⟨hs, ?_⟩
    rw [hs]
    have h1 : (String.mk (s.data.take 200)).length = 200 := by
      rw [String.length_mk, List.length_take]
      have : s.data.length = s.length := rfl
      omega
    rw [String.length_append, h1]
    rfl
  · intro h
    unfold store_full_text
    rw [if_neg (by omega)]

/-- C5, witness for the amended theorem at the 201-character text. -/
theorem c5_amended_truncation_witness :
    c5_text.length > 200 ∧ (store_full_text c5_text).length = 203 := by
  have hlen : c5_text.length = 201 := by
    rw [c5_text, String.length_mk, List.length_replicate]
  exact ⟨by omega, ((c5_amended_truncation c5_text).1 (by omega)).2⟩

/-- C6, confirmed.  The Event Merger is conditionally idempotent: on every
list in which each event is strictly more than `threshold` after its
predecessor (in particular on merger output with all gaps above the
threshold), every event becomes a singleton group, `_merge_event_group`
passes it through unchanged, and the merger returns the identical list. -/
theorem c6_merger_identity_when_far (events : List Event) (threshold : ℚ)
    (h : List.Chain' (fun a b => threshold < b.time - a.time) events) :
    merge_nearby_events events threshold = events := by
  cases events with
  | nil => simp [merge_nearby_events]
  | cons e rest => exact merge_go_far threshold rest e h

/-- C6, witness on two events 10 seconds apart with threshold 5. -/
theorem c6_merger_identity_when_far_witness :
    List.Chain' (fun a b : Event => (5:ℚ) < b.time - a.time) [w_event_a, w_event_b] ∧
    merge_nearby_events [w_event_a, w_event_b] 5 = [w_event_a, w_event_b] := by
  have hchain : List.Chain' (fun a b : Event => (5:ℚ) < b.time - a.time) [w_event_a, w_event_b] := by
    rw [List.chain'_cons]
    refine ⟨?_, by simp⟩
    norm_num [w_event_a, w_event_b]
  exact ⟨hchain, c6_merger_identity_when_far [w_event_a, w_event_b] 5 hchain⟩

/-- C7, confirmed.  On every constant rms series: there is no local maximum
at all, `find_peaks` accepts no peak for any height and distance (so the
division by the standard deviation in the intensity computation is never
reached), and the Volume Peak (default parameters, sample rate 22050),
Surprise (default thresholds 0.01 / 0.1) and Sustained-High-Volume
(default multiplier 1.3) detectors all return an empty event list. -/
theorem c7_constant_rms_no_events (n : ℕ) (c : ℚ) (times : List ℚ) :
    local_maxima (List.replicate n c) = [] ∧
    (∀ (h : ℝ) (d : ℕ), find_peaks (List.replicate n c) h d = []) ∧
    detect_volume_peaks { rms := List.replicate n c, times := times, sample_rate := 22050 }
      (3/2) 2 = .ok [] ∧
    detect_silence_to_loud { rms := List.replicate n c, times := times, sample_rate := 22050 }
      (1/100) (1/10) 1 = [] ∧
    detect_sustained_high_volume { rms := List.replicate n c, times := times, sample_rate := 22050 }
      (13/10) 5 = [] := by
  refine ⟨local_maxima_replicate n c, find_peaks_replicate n c, ?_, ?_, ?_⟩
  · unfold detect_volume_peaks
    have hd : pyInt ((2:ℚ) * ((22050:ℕ):ℚ) / (hopLength : ℚ)) = 86 := by
      norm_num [pyInt, hopLength]
    simp only [hd]
    rw [if_neg (by norm_num)]
    rw [find_peaks_replicate]
    simp
  · unfold detect_silence_to_loud
    rw [List.filterMap_eq_nil_iff]
    intro i hi
    rw [List.mem_range'_1] at hi
    simp only [List.length_replicate] at hi
    unfold stl_check
    rw [if_neg]
    rintro ⟨h0, hsil, hloud⟩
    rw [getD_replicate, if_pos (by omega)] at hsil
    rw [getD_replicate, if_pos (by omega)] at hloud
    linarith
  · unfold detect_sustained_high_volume
    simp only [List.map_replicate]
    by_cases hb : decide (c > npMean (List.replicate n c) * (13/10)) = true
    · rw [hb]
      exact sus_go_all_true _ _ _ _ n 0 none
    · rw [Bool.not_eq_true] at hb
      rw [hb]
      exact sus_go_all_false _ _ _ _ n 0

/-- C8, confirmed.  For every nonempty, non-constant series, `_normalize`
returns a series of the same length with every value in `[0,1]`; the values
0 and 1 are attained, and every position holding the minimum maps to 0 and
every position holding the maximum maps to 1.  For every constant series
(all members equal) it returns the all-zero series of the same length
instead of dividing by zero. -/
theorem c8_normalize_spec (l : List ℚ) (h1 : l ≠ []) (h2 : ∃ a ∈ l, ∃ b ∈ l, a ≠ b) :
    (normalize l).length = l.length ∧
    (∀ v ∈ normalize l, 0 ≤ v ∧ v ≤ 1) ∧
    (0:ℚ) ∈ normalize l ∧ (1:ℚ) ∈ normalize l ∧
    (∀ i, i < l.length → l.getD i 0 = npMin l → (normalize l).getD i 0 = 0) ∧
    (∀ i, i < l.length → l.getD i 0 = npMax l → (normalize l).getD i 0 = 1) ∧
    (∀ m : List ℚ, (∀ a ∈ m, ∀ b ∈ m, a = b) → normalize m = List.replicate m.length 0) := by
  obtain ⟨a, ha, b, hb, hab⟩ := h2
  have hlen : l.length ≠ 0 := fun hc => h1 (List.length_eq_zero.mp hc)
  have hminmax : npMin l < npMax l := by
    rcases lt_or_ge a b with hlt | hge
    · exact lt_of_le_of_lt (npMin_le l a ha) (lt_of_lt_of_le hlt (le_npMax l b hb))
    · have hlt : b < a := lt_of_le_of_ne hge (fun hc => hab hc.symm)
      exact lt_of_le_of_lt (npMin_le l b hb) (lt_of_lt_of_le hlt (le_npMax l a ha))
  have hpos : npMax l - npMin l > 0 := by linarith
  have hnorm : normalize l = l.map (fun x => (x - npMin l) / (npMax l - npMin l)) := by
    unfold normalize
    rw [if_neg hlen, if_pos hpos]
  refine ⟨?_, ?_, ?_, ?_, ?_, ?_, ?_⟩
  · rw [hnorm, List.length_map]
  · rw [hnorm]
    intro v hv
    obtain ⟨x, hx, hxv⟩ := List.mem_map.mp hv
    constructor
    · rw [← hxv]
      exact div_nonneg (by linarith [npMin_le l x hx]) (le_of_lt hpos)
    · rw [← hxv]
      rw [div_le_one hpos]
      linarith [le_npMax l x hx]
  · rw [hnorm]
    refine List.mem_map.mpr ⟨npMin l, npMin_mem l h1, by field_simp⟩
  · rw [hnorm]
    refine List.mem_map.mpr ⟨npMax l, npMax_mem l h1, by field_simp⟩
  · intro i hi hmin
    have hi2 : i < (l.map (fun x => (x - npMin l) / (npMax l - npMin l))).length := by
      simpa using hi
    rw [hnorm, List.getD_eq_getElem _ _ hi2, List.getElem_map]
    rw [List.getD_eq_getElem _ _ hi] at hmin
    rw [hmin]
    field_simp
  · intro i hi hmax
    have hi2 : i < (l.map (fun x => (x - npMin l) / (npMax l - npMin l))).length := by
      simpa using hi
    rw [hnorm, List.getD_eq_getElem _ _ hi2, List.getElem_map]
    rw [List.getD_eq_getElem _ _ hi] at hmax
    rw [hmax]
    field_simp
  · intro m hm
    unfold normalize
    by_cases hm0 : m.length = 0
    · rw [if_pos hm0]
      rw [List.length_eq_zero.mp hm0]
      simp
    · rw [if_neg hm0]
      have hne : m ≠ [] := fun hc => hm0 (by rw [hc]; rfl)
      have heq : npMax m - npMin m = 0 := by
        have := hm (npMax m) (npMax_mem m hne) (npMin m) (npMin_mem m hne)
        linarith [this]
      rw [if_neg (by linarith)]

/-- C8, witness on the non-constant series `[1, 3]` and the constant series
`[2, 2]`. -/
theorem c8_normalize_spec_witness :
    ([1, 3] : List ℚ) ≠ [] ∧
    (0:ℚ) ∈ normalize [1, 3] ∧ (1:ℚ) ∈ normalize [1, 3] ∧
    normalize [2, 2] = [0, 0] := by
  have h := c8_normalize_spec [1, 3] (by simp) ⟨1, by simp, 3, by simp, by norm_num⟩
  refine ⟨by simp, h.2.2.1, h.2.2.2.1, ?_⟩
  have h2 := h.2.2.2.2.2.2 [2, 2] (by intro a ha b hb; simp at ha hb; rw [ha, hb])
  simpa using h2

/-- C9, confirmed.  Every section annotated by `_prioritize_sections`
carries `priorityScore = typeWeight(type) * intensity * (1 + ln(eventCount))`;
the annotated list is sorted ascending by `startTime` and is a permutation
of the input with scores attached (so priority is never used as a sort key);
and the final section list returned by `detect_sections`, whenever it
returns successfully, is sorted ascending by `startTime`. -/
theorem c9_priority_score_and_chronological_order (ss : List Section) :
    (∀ p ∈ prioritize_sections ss,
        p.2 = ((event_weights p.1.type : ℚ) : ℝ) * p.1.intensity *
          (1 + Real.log (p.1.event_count : ℝ))) ∧
    List.Pairwise (fun a b : Section × ℝ => a.1.start_time ≤ b.1.start_time)
      (prioritize_sections ss) ∧
    (prioritize_sections ss).Perm (ss.map (fun s => (s, section_score s))) ∧
    ∀ (evs : List Event) (tr : Option Transcription) (mg mt : ℚ),
      except_holds
        (fun out => List.Pairwise (fun a b : Section × ℝ => a.1.start_time ≤ b.1.start_time) out)
        (detect_sections evs tr mg mt) := by
  refine ⟨?_, prioritize_sections_sorted ss, List.mergeSort_perm _ _, ?_⟩
  · intro p hp
    have hmem : p ∈ ss.map (fun s => (s, section_score s)) :=
      (List.mergeSort_perm _ _).mem_iff.mp hp
    obtain ⟨s, _, hs⟩ := List.mem_map.mp hmem
    rw [← hs]
    rfl
  · intro evs tr mg mt
    unfold detect_sections
    by_cases he : evs.isEmpty
    · simp [he, except_holds]
    · simp only [he, if_false]
      cases tr with
      | none => exact prioritize_sections_sorted _
      | some t =>
        cases h : add_content_from_transcription
            (create_sections (merge_nearby_events
              (evs.mergeSort (fun a b => decide (a.time ≤ b.time))) mt) mg) t with
        | error e => simp [h, except_holds, Except.map]
        | ok s => simpa [h, except_holds, Except.map] using prioritize_sections_sorted s

/-- C10, confirmed.  For every `startTime t ≥ 0` the formatted string is
computed from `int(t) % 86400`: fractional seconds are truncated (the floor
for nonnegative `t`), a whole day added to the time leaves the string
unchanged, and 90000 seconds (25 h) formats as `"01:00:00"`, because hours,
minutes and seconds are derived from the day remainder of the timedelta
only. -/
theorem c10_format_time_day_wrap (t : ℚ) (h : 0 ≤ t) :
    format_time t = format_time (((⌊t⌋ % 86400).toNat : ℕ) : ℚ) ∧
    format_time (t + 86400) = format_time t ∧
    format_time 90000 = "01:00:00" := by
  refine ⟨?_, ?_, ?_⟩
  · apply format_time_congr
    have h1 : pyInt t = ⌊t⌋ := if_pos h
    have h2 : pyInt (((⌊t⌋ % 86400).toNat : ℕ) : ℚ) = ((⌊t⌋ % 86400).toNat : ℤ) := by
      unfold pyInt
      rw [if_pos (by positivity), Int.floor_natCast]
    rw [h1, h2, Int.toNat_of_nonneg (Int.emod_nonneg _ (by norm_num))]
    rw [Int.emod_emod_of_dvd _ dvd_rfl]
  · apply format_time_congr
    have h1 : pyInt t = ⌊t⌋ := if_pos h
    have h2 : pyInt (t + 86400) = ⌊t⌋ + 86400 := by
      unfold pyInt
      rw [if_pos (by positivity)]
      rw [show (86400:ℚ) = ((86400:ℤ):ℚ) by norm_num, Int.floor_add_int]
    rw [h1, h2]
    omega
  · unfold format_time
    rw [show pyInt (90000:ℚ) = 90000 from by norm_num [pyInt]]
    rfl

/-- C10, witness at `t = 90.5`. -/
theorem c10_format_time_day_wrap_witness :
    (0:ℚ) ≤ 181/2 ∧ format_time (181/2) = format_time (((⌊(181/2:ℚ)⌋ % 86400).toNat : ℕ) : ℚ) ∧
    format_time 90000 = "01:00:00" := by
  have h := c10_format_time_day_wrap (181/2) (by norm_num)
  exact ⟨by norm_num, h.1, h.2.2⟩

end Movie
